import Mathlib

/-!
Verification of the censaurus geographic-resolution core against its
natural-language specification.

The definitions below are shallow embeddings of the Python source:

* `censaurus/tiger.py`   — pagination (`Layer._paginate_through_features`),
  page merging (`Layer._convert_feature_responses_to_gdf`), the fuzzy
  name-matching scorer (`build_custom_scorer`), the acceptance logic of
  `Layer.get_area_by_name`, the spatial area-threshold filter of
  `Layer._get_feature_geometry`, and the memoized `Area` resolver.
* `censaurus/geography.py` — `pad_geography_filters` and
  `Geography._build_geography_params`.
* `censaurus/api.py`     — the chunked `get_many` batcher.

Network fetches, shapely geometry and floating-point IDF weights
(`numpy.log`) are modelled abstractly: fetch results and geometry are
parameters, and IDF weights are an abstract nonnegative rational-valued
map standing for `log(N/count)` (nonnegative because each token is counted
at most once per candidate, so `count <= N`).
-/

namespace Censaurus

/-! ## Pagination: `Layer._paginate_through_features` (tiger.py:385-421)

One wave of the inner `while retrieved_all is False` loop builds
`1 + feature_count // result_record_count` requests via
`for _ in range(1 + (feature_count//result_record_count))`, each carrying
`resultOffset`/`resultRecordCount`, with the offset advanced by
`result_record_count` per request. -/

/-- One wave of page requests, as pairs `(resultOffset, resultRecordCount)`,
exactly as generated by the `for _ in range(1 + (feature_count//result_record_count))`
loop starting at `startOffset`. -/
def pageRequestWave (featureCount resultRecordCount startOffset : Nat) :
    List (Nat × Nat) :=
  (List.range (1 + featureCount / resultRecordCount)).map
    (fun i => (startOffset + i * resultRecordCount, resultRecordCount))

/-- `Layer._convert_feature_responses_to_gdf` (tiger.py:423-433): the per-page
feature lists are concatenated (`pandas.concat`) and reindexed
(`reset_index`); no row is dropped and no deduplication is performed. -/
def convertFeatureResponsesToGdf {F : Type} (responses : List (List F)) : List F :=
  responses.flatten

/-- Ideal server model: the response to a page request is the window
`[offset, offset + count)` of the full matching-record list. -/
def serverWindow {F : Type} (records : List F) (offset count : Nat) : List F :=
  (records.drop offset).take count

/-- A full paginated fetch against the ideal server: issue the wave of page
requests for `records.length` matching records with page size `pageSize`,
then merge the responses with `convertFeatureResponsesToGdf`. -/
def fetchAllPages {F : Type} (records : List F) (pageSize : Nat) : List F :=
  convertFeatureResponsesToGdf
    ((pageRequestWave records.length pageSize 0).map
      (fun w => serverWindow records w.1 w.2))

/-! ## Retry loop of `Layer._paginate_through_features`

The `while True` loop increments `tries`, runs one fetch attempt, and on
`TIGERWebAPIError` halves `result_record_count` and retries while
`tries <= 2`, raising after that; a `JSONDecodeError` raises immediately. -/

/-- Outcome of one fetch attempt (the `try` body): success with a result,
a server-side `TIGERWebAPIError`, or a `JSONDecodeError`. -/
inductive FetchOutcome (R : Type) where
  | ok (r : R)
  | serviceError
  | decodeError
deriving DecidableEq

/-- The two fatal errors `_paginate_through_features` can raise. -/
inductive TigerError where
  | serviceFailure
  | decodeFailure
deriving DecidableEq

/-- The retry loop of `_paginate_through_features`. `attempt n rrc` is the
outcome of the `n`-th attempt (1-based, matching the Python `tries` counter)
when run with page size `rrc`; `tries` is the number of attempts already
made. On `serviceError` the page size is halved and the loop retried while
`tries + 1 <= 2`; otherwise the service failure is fatal. `decodeError` is
fatal immediately. -/
def paginateLoop {R : Type} (attempt : Nat → Nat → FetchOutcome R) :
    Nat → Nat → Except TigerError R
  | tries, rrc =>
    match attempt (tries + 1) rrc with
    | .ok r => .ok r
    | .decodeError => .error .decodeFailure
    | .serviceError =>
      if tries + 1 ≤ 2 then paginateLoop attempt (tries + 1) (rrc / 2)
      else .error .serviceFailure
termination_by tries _ => 3 - tries

/-- Entry point of the retry loop: `tries` starts at `0`
(the Python counter is incremented at the top of the loop). -/
def paginateThroughFeatures {R : Type} (attempt : Nat → Nat → FetchOutcome R)
    (resultRecordCount : Nat) : Except TigerError R :=
  paginateLoop attempt 0 resultRecordCount

/-! ## Chunked batching: `TIGERClient.get_many` / `CensusClient.get_many`
(api.py:140-160, 254-274)

Tasks are created in input order, sliced into chunks of `chunk_size`
(`tasks[i:i + self.chunk_size]` for `i in range(0, len(tasks), chunk_size)`),
each chunk is awaited with `gather` (which preserves order), and the chunk
results are appended with `extend`. -/

/-- `l.take n :: …` slices of a list, exactly the
`tasks[i:i+n] for i in range(0, len, n)` chunking. The fuel argument is the
list length, which bounds the number of slices for `n > 0`. -/
def chunksAux {α : Type} (n : Nat) : Nat → List α → List (List α)
  | _, [] => []
  | 0, _ => []
  | fuel + 1, l => l.take n :: chunksAux n fuel (l.drop n)

/-- The chunks `[l[0:n], l[n:2n], …]` of a list. -/
def chunkList {α : Type} (n : Nat) (l : List α) : List (List α) :=
  chunksAux n l.length l

/-- `get_many`: process every request concurrently in chunks of `chunkSize`
and concatenate the per-chunk response lists in order. `process` models the
transport (one response per request). -/
def getMany {Req Resp : Type} (process : Req → Resp) (chunkSize : Nat)
    (requests : List Req) : List Resp :=
  ((chunkList chunkSize requests).map (List.map process)).flatten

/-! ## Fuzzy name matching: `build_custom_scorer` (tiger.py:90-142)

`Levenshtein.distance` and `Levenshtein.ratio` are embedded directly
(classic edit distance with unit costs, and the normalized indel similarity
`2*LCS/(len1+len2)`).  `scipy.optimize.linear_sum_assignment` on the square
padded cost matrix is the minimum assignment cost, i.e. the minimum over
permutations of one token list of the pairwise cost sum. -/

/-- Unit-cost edit distance, fuelled so that it is structurally recursive
(the fuel is consumed one unit per character consumed, so
`|xs| + |ys|` fuel always suffices; the `0` case is unreachable then). -/
def levFuel : Nat → List Char → List Char → Nat
  | 0, _, _ => 0
  | _ + 1, [], ys => ys.length
  | _ + 1, xs, [] => xs.length
  | fuel + 1, x :: xs, y :: ys =>
    if x = y then levFuel fuel xs ys
    else 1 + min (levFuel fuel xs (y :: ys))
            (min (levFuel fuel (x :: xs) ys) (levFuel fuel xs ys))

/-- `Levenshtein.distance`: the edit distance between two strings. -/
def levenshtein (s1 s2 : String) : Nat :=
  levFuel (s1.length + s2.length + 1) s1.data s2.data

/-- Length of a longest common subsequence, fuelled like `levFuel`. -/
def lcsFuel : Nat → List Char → List Char → Nat
  | 0, _, _ => 0
  | _ + 1, [], _ => 0
  | _ + 1, _, [] => 0
  | fuel + 1, x :: xs, y :: ys =>
    if x = y then 1 + lcsFuel fuel xs ys
    else max (lcsFuel fuel (x :: xs) ys) (lcsFuel fuel xs (y :: ys))

/-- `Levenshtein.ratio`: normalized indel similarity
`(len1 + len2 - indel_distance)/(len1 + len2) = 2*LCS/(len1 + len2)`,
with `ratio("", "") = 1`. -/
def levRatio (s1 s2 : String) : ℚ :=
  if s1.length + s2.length = 0 then 1
  else (2 * (lcsFuel (s1.length + s2.length + 1) s1.data s2.data) : ℚ) /
    ((s1.length : ℚ) + (s2.length : ℚ))

/-- Python's `\w` test (`re` module, on ASCII input): letters, digits, `_`. -/
def isWordChar (c : Char) : Bool := c.isAlphanum || c = '_'

/-- `re.split(pattern='\W+', string=s)` on a character list: split at each
maximal run of non-word characters; a leading or trailing run contributes an
empty segment.  `cur` is the current segment (reversed), `inSep` records
that the previous character was part of a separator run. -/
def pySplitNonWordAux : List Char → List Char → Bool → List String
  | [], cur, _ => [String.mk cur.reverse]
  | c :: cs, cur, inSep =>
    if isWordChar c then pySplitNonWordAux cs (c :: cur) false
    else if inSep then pySplitNonWordAux cs cur true
    else String.mk cur.reverse :: pySplitNonWordAux cs [] true

/-- `tokenize_feature_name` (tiger.py:79-88):
`set(re.split(pattern='\W+', string=feature_name))`.  The Python `set` is
modelled as the duplicate-free list of segments in first-occurrence order;
every use (cardinality, membership, summed lengths, optimal assignment) is
order-independent. -/
def tokenize_feature_name (featureName : String) : List String :=
  (pySplitNonWordAux featureName.data [] false).dedup

/-- `token_distance_idf` (tiger.py:106-111).  `countMap` is the domain of
`idf_map` (the keys of `count_map`, which at the call site are the
lowercased tokens of all candidate names); `idf t` stands for the float
`log(N / count_map[t])`.  If either token is empty and the non-empty one is
a key of `idf_map`, the cost is half its IDF weight; otherwise it is the
edit distance. -/
def token_distance_idf (countMap : String → Option Nat) (idf : String → ℚ)
    (s1t s2t : String) : ℚ :=
  if s1t = "" ∨ s2t = "" then
    match countMap (if s1t ≠ "" then s1t else s2t) with
    | some _ => idf (if s1t ≠ "" then s1t else s2t) / 2
    | none => (levenshtein s1t s2t : ℚ)
  else (levenshtein s1t s2t : ℚ)

/-- Sum of pairwise costs along two equally long token lists. -/
def costSum (cost : String → String → ℚ) : List String → List String → ℚ
  | [], _ => 0
  | _, [] => 0
  | x :: xs, y :: ys => cost x y + costSum cost xs ys

/-- Minimum of a nonempty list of rationals (`0` for the empty list, which
never occurs: a list always has at least one permutation). -/
def listMinQ : List ℚ → ℚ
  | [] => 0
  | [x] => x
  | x :: y :: xs => min x (listMinQ (y :: xs))

/-- All ways to insert an element into a list. -/
def insertEverywhere {α : Type} (x : α) : List α → List (List α)
  | [] => [[x]]
  | y :: ys => (x :: y :: ys) :: (insertEverywhere x ys).map (fun zs => y :: zs)

/-- All permutations of a list (structurally recursive enumeration). -/
def allPerms {α : Type} : List α → List (List α)
  | [] => [[]]
  | x :: xs => ((allPerms xs).map (insertEverywhere x)).flatten

/-- `scipy.optimize.linear_sum_assignment` on the square cost matrix of two
equally long token lists: the minimum over all one-to-one assignments, i.e.
over all permutations of the second list, of the pairwise cost sum. -/
def assignmentMin (cost : String → String → ℚ) (l1 l2 : List String) : ℚ :=
  listMinQ ((allPerms l2).map (fun p => costSum cost l1 p))

/-- `set_distance` (tiger.py:113-131): pad the shorter token list with empty
tokens up to `k = max n m`, solve the optimal assignment, and normalize:
`nsld = (2*sld)/(ls1t + ls2t + sld)` where `ls1t`, `ls2t` are the summed
token lengths. -/
def set_distance (countMap : String → Option Nat) (idf : String → ℚ)
    (s1ts s2ts : List String) : ℚ :=
  let ls1t : ℚ := ((s1ts.map String.length).sum : ℚ)
  let ls2t : ℚ := ((s2ts.map String.length).sum : ℚ)
  let n := s1ts.length
  let m := s2ts.length
  let k := max n m
  let s1tl := s1ts ++ List.replicate (k - n) ""
  let s2tl := s2ts ++ List.replicate (k - m) ""
  let sld := assignmentMin (token_distance_idf countMap idf) s1tl s2tl
  (2 * sld) / (ls1t + ls2t + sld)

/-- `custom_scorer` (tiger.py:133-140): tokenize both names; two
single-token names are compared by the plain similarity ratio, otherwise
the score is `1 - set_distance`. -/
def custom_scorer (countMap : String → Option Nat) (idf : String → ℚ)
    (s1 s2 : String) : ℚ :=
  let s1ts := tokenize_feature_name s1
  let s2ts := tokenize_feature_name s2
  if s1ts.length = 1 ∧ s2ts.length = 1 then levRatio s1 s2
  else 1 - set_distance countMap idf s1ts s2ts

/-! ## Name-match acceptance: `Layer.get_area_by_name` (tiger.py:582-663)

A scored candidate is a `(matched name, score, GEOID)` triple, the tuple
shape returned by `thefuzz.process.extractBests` on a `{GEOID: name}`
choices dict.  `extractBests` keeps the candidates scoring at least the
cutoff, sorted by score descending, up to `limit` of them.  The re-scoring
runs of the missing-token refinement loop (one `extractBests` call per
missing token, tiger.py:643-652) are passed in as data. -/

/-- `(match, score, key)` as returned by `thefuzz.process.extractBests`. -/
abbrev ScoredMatch := String × ℚ × String

/-- `thefuzz.process.extractBests(..., limit, score_cutoff)`: candidates
with score at least the cutoff, ranked by score descending, at most
`limit` of them. -/
def extractBests (scored : List ScoredMatch) (limit : Nat) (cutoff : ℚ) :
    List ScoredMatch :=
  (List.insertionSort (fun a b : ScoredMatch => b.2.1 ≤ a.2.1)
    (scored.filter (fun c => cutoff ≤ c.2.1))).take limit

/-- The three possible outcomes of `Layer.get_area_by_name`: the no-match
exception (carrying example names), an accepted GEOID, or the
ambiguous-name exception (carrying the top candidates). -/
inductive MatchDecision where
  | noMatch (exampleNames : List String)
  | accepted (geoid : String)
  | ambiguous (top : List ScoredMatch)
deriving DecidableEq

/-- The per-token success test of the refinement loop (tiger.py:649):
`(len(new_best_matches) == 1 and new_best_matches[0][1] > 0.95) or
(len(new_best_matches) > 0 and new_best_matches[0][1] >= 0.98)`. -/
def refinement_accepts : List ScoredMatch → Bool
  | [] => false
  | m :: rest =>
    (rest.isEmpty && decide ((95 : ℚ)/100 < m.2.1)) ||
      decide ((98 : ℚ)/100 ≤ m.2.1)

/-- The `if/elif` acceptance chain of `get_area_by_name` applied to the
ranked matches.  `refined` holds the `new_best_matches` list of each
iteration of the missing-token loop; `new_matches_found == 1` accepts the
GEOID recorded by the unique successful iteration. -/
def get_area_by_name_decision (bestMatches : List ScoredMatch)
    (refined : List (List ScoredMatch)) (exampleNames : List String) :
    MatchDecision :=
  match bestMatches with
  | [] => .noMatch exampleNames
  | [b0] => .accepted b0.2.2
  | b0 :: b1 :: _ =>
    if (99 : ℚ)/100 ≤ b0.2.1 then .accepted b0.2.2
    else if (95 : ℚ)/100 < b0.2.1 ∧ (5 : ℚ)/100 < b0.2.1 - b1.2.1 then
      .accepted b0.2.2
    else
      match refined.filter (fun ms => refinement_accepts ms) with
      | [ms] => .accepted (ms.headD ("", 0, "")).2.2
      | _ => .ambiguous (bestMatches.take 10)

/-- `get_area_by_name`, from the raw scored candidates: rank them with
`extractBests(..., limit=20, score_cutoff=0.8)` (tiger.py:614) and run the
acceptance chain. -/
def get_area_by_name_match (scored : List ScoredMatch)
    (refined : List (List ScoredMatch)) (exampleNames : List String) :
    MatchDecision :=
  get_area_by_name_decision (extractBests scored 20 ((8 : ℚ)/10)) refined
    exampleNames

/-! ## Spatial area-threshold filter: `Layer._get_feature_geometry`
(tiger.py:495-502)

`intersections = gdf.intersection(other=within_geometry)` and
`intersecting_mask = intersections.area/gdf.area >= area_threshold`; the
rows failing the mask are dropped.  A candidate row is modelled by its own
area and the area of its intersection with the reference region. -/

/-- One candidate feature row: an opaque attribute payload, the feature's
own area (`gdf.area`) and the area of its intersection with the
`within_geometry` reference (`intersections.area`). -/
structure CandidateFeature where
  attrs : String
  area : ℚ
  interArea : ℚ
deriving DecidableEq

/-- The area-threshold filter: keep exactly the candidates with
`interArea / area >= threshold` (inclusive comparison). -/
def spatialFilter (threshold : ℚ) (cands : List CandidateFeature) :
    List CandidateFeature :=
  cands.filter (fun c => threshold ≤ c.interArea / c.area)

/-! ## Geography parameters: `Geography._build_geography_params`
(geography.py:128-163) and `pad_geography_filters` (geography.py:19-53) -/

/-- The fixed zero-padding widths of `pad_geography_filters`;
`'block group'` is only passed through `str(int(value))`, i.e. width `0`. -/
def padWidth : String → Option Nat
  | "state" => some 2
  | "county" => some 3
  | "tract" => some 6
  | "block group" => some 0
  | "block" => some 4
  | "place" => some 5
  | "metropolitan statistical area/micropolitan statistical area" => some 5
  | "combined statistical area" => some 3
  | "congressional district" => some 2
  | "voting district" => some 6
  | "zip code tabulation area" => some 5
  | _ => none

/-- `str(int(value))` for a decimal numeral: strip leading zeros, keeping a
single `"0"` when the value is all zeros. -/
def stripZeros (v : String) : String :=
  let t := v.data.dropWhile (fun c => c = '0')
  if t.isEmpty then "0" else String.mk t

/-- `str.zfill(width)`: left-pad with `'0'` up to `width` characters. -/
def zfill (width : Nat) (s : String) : String :=
  String.mk (List.replicate (width - s.length) '0' ++ s.data)

/-- Pad one filter value for level `g`: levels in the width table get
`str(int(value)).zfill(width)`, others are untouched. -/
def padValue (g v : String) : String :=
  match padWidth g with
  | some w => zfill w (stripZeros v)
  | none => v

/-- `pad_geography_filters`: every non-`'*'` value is padded for its level;
keys and `'*'` values are untouched. -/
def pad_geography_filters (geoFilters : List (String × String)) :
    List (String × String) :=
  geoFilters.map (fun p => (p.1, if p.2 = "*" then p.2 else padValue p.1 p.2))

/-- Python `dict` lookup on the filters (keys are unique). -/
def lookupF (fs : List (String × String)) (g : String) : Option String :=
  match fs.find? (fun p => p.1 = g) with
  | some p => some p.2
  | none => none

/-- The fields of a `Geography` used by `_build_geography_params`:
`name`, `requires` (ordered outermost first) and `wildcard`
(the wildcard-eligible subset of `requires`). -/
structure GeographyR where
  name : String
  requires : List String
  wildcard : List String

/-- The three `InvalidGeographyHierarchy` errors of
`_build_geography_params`, each naming the offending level g:
g must supplied as a geo filter,
g must be specified and cannot be a wildcard, and
cannot use wildcard for g because an inner level is already specified. -/
inductive GeoBuildError where
  | mustSupply (g : String)
  | cannotBeWildcard (g : String)
  | wildcardConflict (g : String)
deriving DecidableEq

/-- The `for g in reverse_requires` walk (geography.py:142-161): levels are
visited innermost first; a present filter value is used, else `'*'` when the
level is wildcard-eligible, else the walk fails naming the level.  A `'*'`
value fails when the level is not wildcard-eligible, or when
`has_specified_geo` is already set; a concrete value sets
`has_specified_geo`.  Returns the `'in'` parameter list in walk order. -/
def buildInParams (wc : List String) (fs : List (String × String)) :
    List String → Bool → Except GeoBuildError (List (String × String))
  | [], _ => .ok []
  | g :: rest, hasSpec =>
    match lookupF fs g with
    | some v =>
      if v = "*" then
        if g ∈ wc then
          if hasSpec then .error (.wildcardConflict g)
          else (buildInParams wc fs rest hasSpec).map (fun l => (g, v) :: l)
        else .error (.cannotBeWildcard g)
      else (buildInParams wc fs rest true).map (fun l => (g, v) :: l)
    | none =>
      if g ∈ wc then
        if hasSpec then .error (.wildcardConflict g)
        else (buildInParams wc fs rest hasSpec).map (fun l => (g, "*") :: l)
      else .error (.mustSupply g)

/-- `Geography._build_geography_params`: pad the filters; emit
`for = name:value` (setting `has_specified_geo` and deleting the key) when
the target level itself is pinned to a concrete value, else
`for = name:*`; then walk `requires` innermost to outermost building the
`'in'` parameters.  Returns the `for` pair and the `in` list. -/
def build_geography_params (geo : GeographyR)
    (geoFilters : List (String × String)) :
    Except GeoBuildError ((String × String) × List (String × String)) :=
  let fs := pad_geography_filters geoFilters
  match lookupF fs geo.name with
  | some v =>
    if v ≠ "*" then
      (buildInParams geo.wildcard (fs.filter (fun p => p.1 ≠ geo.name))
        geo.requires.reverse true).map (fun l => ((geo.name, v), l))
    else
      (buildInParams geo.wildcard fs geo.requires.reverse false).map
        (fun l => ((geo.name, "*"), l))
  | none =>
    (buildInParams geo.wildcard fs geo.requires.reverse false).map
      (fun l => ((geo.name, "*"), l))

/-! ## Memoized `Area` resolution: `Area.from_tiger_geo_id`
(tiger.py:220-274) and `Area._from_file_or_url` (tiger.py:316-346)

Both bound `_set_attributes` closures start with
`if self._attributes_are_set is True: return`, populate
`name`/`attributes`/`geometry`, and set `_attributes_are_set = True` last.
The network fetch is modelled as the fetched feature being a parameter, and
the boolean component of the result records whether the fetch body ran. -/

/-- One fetched GeoJSON feature: its `properties` and its geometry
(`shape(feature['geometry'])`), with geometry kept abstract. -/
structure FetchedFeature (G : Type) where
  properties : List (String × String)
  geometry : G

/-- The mutable state of an `Area` object (tiger.py:161-167). -/
structure AreaState (G : Type) where
  name : Option String
  attributesAreSet : Bool
  attributes : List (String × String)
  geometry : Option G
deriving DecidableEq

/-- `Area.__init__`: unresolved, with no name, attributes or geometry. -/
def initialArea (G : Type) : AreaState G :=
  { name := none, attributesAreSet := false, attributes := [], geometry := none }

/-- The `for attr, val in feature['properties'].items()` loop of
`from_tiger_geo_id._set_attributes` (tiger.py:254-261): `NAME` sets the
area's name and is skipped, `BASENAME` is skipped, every other attribute is
stored under its `FEATURE_ATTRIBUTE_MAP` rename (`attrMap`). -/
def applyProperties {G : Type} (attrMap : String → String)
    (props : List (String × String)) (s : AreaState G) : AreaState G :=
  props.foldl
    (fun st p =>
      if p.1 = "NAME" then { st with name := some p.2 }
      else if p.1 = "BASENAME" then st
      else { st with attributes := st.attributes ++ [(attrMap p.1, p.2)] })
    s

/-- The bound `_set_attributes` resolver of `Area.from_tiger_geo_id`:
a no-op when `_attributes_are_set` is already `True`; otherwise fetch the
feature, store its renamed properties and its geometry (clipped to the
cartographic boundary when `clipToCb`), and set the flag.  The second
component records whether the fetch body ran. -/
def setAttributesTiger {G : Type} (attrMap : String → String)
    (fetched : FetchedFeature G) (clip : G → G) (clipToCb : Bool)
    (s : AreaState G) : AreaState G × Bool :=
  if s.attributesAreSet = true then (s, false)
  else
    let s1 := applyProperties attrMap fetched.properties s
    let geom := if clipToCb then clip fetched.geometry else fetched.geometry
    ({ s1 with geometry := some geom, attributesAreSet := true }, true)

/-! ## Concrete instances used by counterexamples and witnesses -/

/-- A fetch attempt that always reports a server-side service error. -/
def failingAttempt : Nat → Nat → FetchOutcome Nat := fun _ _ => .serviceError

/-- The IDF-map domain of a corpus whose only counted token is the
lowercased `"california"` (tokens are counted with `token.lower()` at
tiger.py:608, so the capitalized token is not a key). -/
def cmCalifornia : String → Option Nat :=
  fun t => if t = "california" then some 1 else none

/-- An abstract IDF weight assignment for that corpus. -/
def idfCalifornia : String → ℚ := fun _ => 3

/-- IDF-map domain of a corpus containing the tokens `""` and `"a"`
(an empty token is counted whenever some candidate name starts or ends with
punctuation). -/
def cmPunct : String → Option Nat :=
  fun t => if t = "" ∨ t = "a" then some 1 else none

/-- Positive abstract IDF weights for that corpus (standing for `log 2`,
the weight of a token occurring in one of two candidates). -/
def idfPunct : String → ℚ := fun t => if t = "" ∨ t = "a" then 7/10 else 0

/-- A level is pinned in a filter set when it is supplied with a concrete
(non-wildcard) value. -/
def pinnedFilter (fs : List (String × String)) (g : String) : Prop :=
  ∃ v, lookupF fs g = some v ∧ v ≠ "*"

/-! ## Helper lemmas -/

theorem levFuel_nil_right (fuel : Nat) (l : List Char) (h : 0 < fuel) :
    levFuel fuel l [] = l.length := by
  cases fuel with
  | zero => omega
  | succ f => cases l <;> rfl

theorem levFuel_self (l : List Char) : ∀ fuel, l.length < fuel →
    levFuel fuel l l = 0 := by
  induction l with
  | nil => intro fuel h; cases fuel with
    | zero => omega
    | succ f => rfl
  | cons x xs ih =>
    intro fuel h
    cases fuel with
    | zero => omega
    | succ f =>
      simp only [levFuel, if_pos rfl]
      exact ih f (by simpa using Nat.lt_of_succ_lt_succ h)

theorem levenshtein_self (s : String) : levenshtein s s = 0 := by
  unfold levenshtein
  have hd : s.data.length = s.length := rfl
  exact levFuel_self s.data _ (by omega)

theorem levenshtein_nil_right (s : String) : levenshtein s "" = s.length := by
  unfold levenshtein
  have h : ("" : String).data = [] := rfl
  rw [h]
  rw [levFuel_nil_right _ _ (by omega)]
  rfl

theorem lcsFuel_self (l : List Char) : ∀ fuel, l.length < fuel →
    lcsFuel fuel l l = l.length := by
  induction l with
  | nil => intro fuel h; cases fuel with
    | zero => omega
    | succ f => rfl
  | cons x xs ih =>
    intro fuel h
    cases fuel with
    | zero => omega
    | succ f =>
      have h2 : xs.length < f := by
        simp only [List.length_cons] at h
        omega
      simp [lcsFuel, ih f h2]
      omega

theorem levRatio_self (s : String) : levRatio s s = 1 := by
  unfold levRatio
  have hd : s.data.length = s.length := rfl
  by_cases h : s.length + s.length = 0
  · simp [h]
  · rw [if_neg h]
    rw [lcsFuel_self s.data _ (by omega)]
    rw [show ((s.data.length : ℚ)) = ((s.length : ℚ)) by rw [hd]]
    have hs : (s.length : ℚ) ≠ 0 := by
      have : s.length ≠ 0 := by omega
      exact_mod_cast this
    field_simp
    ring

theorem listMinQ_mem : ∀ xs : List ℚ, xs ≠ [] → listMinQ xs ∈ xs := by
  intro xs
  induction xs with
  | nil => intro h; exact absurd rfl h
  | cons x ys ih =>
    intro _
    cases ys with
    | nil => simp [listMinQ]
    | cons y zs =>
      simp only [listMinQ]
      rcases le_total x (listMinQ (y :: zs)) with h | h
      · simp [min_eq_left h]
      · right
        rw [min_eq_right h]
        exact ih (by simp)

theorem listMinQ_le : ∀ (xs : List ℚ) (x : ℚ), x ∈ xs → listMinQ xs ≤ x := by
  intro xs
  induction xs with
  | nil => intro x h; simp at h
  | cons a ys ih =>
    intro x hx
    cases ys with
    | nil =>
      simp at hx
      simp [listMinQ, hx]
    | cons y zs =>
      simp only [listMinQ]
      rcases List.mem_cons.mp hx with h | h
      · exact le_trans (min_le_left _ _) (le_of_eq h.symm)
      · exact le_trans (min_le_right _ _) (ih x h)

theorem costSum_nonneg (cost : String → String → ℚ)
    (hc : ∀ a b, 0 ≤ cost a b) :
    ∀ l1 l2, 0 ≤ costSum cost l1 l2 := by
  intro l1
  induction l1 with
  | nil => intro l2; cases l2 <;> simp [costSum]
  | cons x xs ih =>
    intro l2
    cases l2 with
    | nil => simp [costSum]
    | cons y ys =>
      simp only [costSum]
      exact add_nonneg (hc x y) (ih ys)

theorem costSum_self (cost : String → String → ℚ) :
    ∀ l, (∀ t ∈ l, cost t t = 0) → costSum cost l l = 0 := by
  intro l
  induction l with
  | nil => intro _; rfl
  | cons x xs ih =>
    intro h
    simp only [costSum]
    rw [h x (by simp), ih (fun t ht => h t (by simp [ht]))]
    ring

theorem self_mem_insertEverywhere {α : Type} (x : α) (l : List α) :
    x :: l ∈ insertEverywhere x l := by
  cases l <;> simp [insertEverywhere]

theorem self_mem_allPerms {α : Type} : ∀ l : List α, l ∈ allPerms l := by
  intro l
  induction l with
  | nil => simp [allPerms]
  | cons x xs ih =>
    simp only [allPerms]
    rw [List.mem_flatten]
    exact ⟨insertEverywhere x xs, List.mem_map.mpr ⟨xs, ih, rfl⟩,
      self_mem_insertEverywhere x xs⟩

theorem chunksAux_flatten {α : Type} (n : Nat) (hn : 0 < n) :
    ∀ (fuel : Nat) (l : List α), l.length ≤ fuel →
      (chunksAux n fuel l).flatten = l := by
  intro fuel
  induction fuel with
  | zero =>
    intro l hl
    cases l with
    | nil => rfl
    | cons x xs => simp at hl
  | succ f ih =>
    intro l hl
    cases l with
    | nil => rfl
    | cons x xs =>
      simp only [chunksAux, List.flatten_cons]
      have hlen : ((x :: xs).drop n).length ≤ f := by
        rw [List.length_drop]
        simp only [List.length_cons] at hl ⊢
        omega
      rw [ih _ hlen]
      exact List.take_append_drop n (x :: xs)

/-! ## C1: page-request windows -/

/-- C1 (counterexample): the claim says a paginated fetch with known count
issues exactly `ceil(count / pageSize)` page requests; but the code issues
`1 + count // pageSize` requests, so for `count = 100`, `pageSize = 50` it
issues 3 requests while `ceil(100/50) = 2`. -/
theorem pageRequestWave_window_count_not_ceil :
    (pageRequestWave 100 50 0).length ≠ (100 + 50 - 1) / 50 := by decide

/-- C1 (amended): a wave issues `count / pageSize + 1` page requests — equal
to `ceil(count / pageSize)` exactly when `pageSize` does not divide `count`,
and one more otherwise — with `resultOffset` values `0, p, 2p, …` and
`resultRecordCount = pageSize` in each request, covering at least `count`
records. -/
theorem pageRequestWave_spec (count p : Nat) (hp : 0 < p) :
    (pageRequestWave count p 0).length = count / p + 1 ∧
    (∀ i, ∀ h : i < (pageRequestWave count p 0).length,
      (pageRequestWave count p 0).get ⟨i, h⟩ = (i * p, p)) ∧
    count ≤ (pageRequestWave count p 0).length * p ∧
    (¬ p ∣ count → (pageRequestWave count p 0).length = (count + p - 1) / p) := by
  have hlen : (pageRequestWave count p 0).length = count / p + 1 := by
    simp [pageRequestWave]
    omega
  refine ⟨hlen, ?_, ?_, ?_⟩
  · intro i h
    simp [pageRequestWave, List.get_eq_getElem, List.getElem_map,
      List.getElem_range]
  · rw [hlen]
    have hmod : count % p < p := Nat.mod_lt _ hp
    have hdm := Nat.div_add_mod count p
    calc count = p * (count / p) + count % p := hdm.symm
      _ ≤ p * (count / p) + p := by omega
      _ = (count / p + 1) * p := by ring
  · intro hnd
    rw [hlen]
    have hmod : count % p ≠ 0 := fun hz => hnd (Nat.dvd_of_mod_eq_zero hz)
    have hlt : count % p < p := Nat.mod_lt _ hp
    have h1 : (count + (p - 1)) / p
        = count / p + (p - 1) / p + if p ≤ count % p + (p - 1) % p then 1 else 0 :=
      Nat.add_div hp
    have h2 : count + p - 1 = count + (p - 1) := by omega
    rw [h2, h1, Nat.div_eq_of_lt (show p - 1 < p by omega),
      Nat.mod_eq_of_lt (show p - 1 < p by omega),
      if_pos (show p ≤ count % p + (p - 1) by omega)]

/-- C1 (witness): at `count = 101`, `pageSize = 50` the wave has
`101 / 50 + 1 = 3` requests. -/
theorem pageRequestWave_spec_witness :
    0 < 50 ∧ (pageRequestWave 101 50 0).length = 101 / 50 + 1 :=
  ⟨by decide, (pageRequestWave_spec 101 50 (by decide)).1⟩

/-! ## C2: merging of page results -/

/-- C2 (counterexample): the claim says page results are deduplicated by
feature identifier, with no feature appearing twice; but
`_convert_feature_responses_to_gdf` only concatenates (`concat` +
`reset_index`), so a feature present in two page responses appears twice in
the merged result. -/
theorem convert_feature_responses_duplicate :
    convertFeatureResponsesToGdf [["f1"], ["f1"]] = ["f1", "f1"] ∧
    (convertFeatureResponsesToGdf [["f1"], ["f1"]]).count "f1" = 2 := by
  exact ⟨rfl, rfl⟩

theorem flatten_range_windows {F : Type} (p : Nat) (l : List F) :
    ∀ m, ((List.range m).map (fun i => (l.drop (i * p)).take p)).flatten
      = l.take (m * p) := by
  intro m
  induction m with
  | zero => simp
  | succ m ih =>
    rw [List.range_succ, List.map_append, List.flatten_append]
    simp only [List.map_cons, List.map_nil, List.flatten_cons,
      List.flatten_nil, List.append_nil]
    rw [ih, show (m + 1) * p = m * p + p by ring, List.take_add]

/-- C2 (amended): the pagination merge is pure concatenation, with no
deduplication step; nonetheless, against a server whose page responses are
the `[offset, offset + resultRecordCount)` windows of the matching records,
the concatenated pages with any positive page size are exactly the full
record list (so page sizes 50 and 100 give identical feature sets — same
identifiers, same count, no feature twice). -/
theorem fetchAllPages_pageSize_invariant {F : Type} (records : List F)
    (p q : Nat) (hp : 0 < p) (hq : 0 < q) :
    fetchAllPages records p = records ∧
    fetchAllPages records p = fetchAllPages records q := by
  have key : ∀ r : Nat, 0 < r → fetchAllPages records r = records := by
    intro r hr
    unfold fetchAllPages convertFeatureResponsesToGdf pageRequestWave
      serverWindow
    rw [List.map_map]
    have hcomp :
        ((fun w : Nat × Nat => (records.drop w.1).take w.2) ∘
          (fun i => (0 + i * r, r)))
        = fun i => (records.drop (i * r)).take r := by
      funext i
      simp
    rw [hcomp, flatten_range_windows]
    apply List.take_of_length_le
    have hmod : records.length % r < r := Nat.mod_lt _ hr
    have hdm := Nat.div_add_mod records.length r
    calc records.length
        = r * (records.length / r) + records.length % r := hdm.symm
      _ ≤ r * (records.length / r) + r := by omega
      _ = (1 + records.length / r) * r := by ring
  exact ⟨key p hp, (key p hp).trans (key q hq).symm⟩

/-- C2 (witness): with 5 records and page sizes 2 and 3, the merged fetches
both equal the record list. -/
theorem fetchAllPages_pageSize_invariant_witness :
    0 < 2 ∧ 0 < 3 ∧ fetchAllPages [10, 20, 30, 40, 50] 2 = [10, 20, 30, 40, 50] :=
  ⟨by decide, by decide,
    (fetchAllPages_pageSize_invariant [10, 20, 30, 40, 50] 2 3 (by decide)
      (by decide)).1⟩

/-! ## C3: retry-with-halving -/

theorem paginateThroughFeatures_eval {R : Type}
    (attempt : Nat → Nat → FetchOutcome R) (rrc : Nat) :
    paginateThroughFeatures attempt rrc =
      match attempt 1 rrc with
      | .ok r => .ok r
      | .decodeError => .error .decodeFailure
      | .serviceError =>
        match attempt 2 (rrc / 2) with
        | .ok r => .ok r
        | .decodeError => .error .decodeFailure
        | .serviceError =>
          match attempt 3 (rrc / 2 / 2) with
          | .ok r => .ok r
          | .decodeError => .error .decodeFailure
          | .serviceError => .error .serviceFailure := by
  unfold paginateThroughFeatures
  rw [paginateLoop]
  norm_num
  cases h1 : attempt 1 rrc with
  | ok r => rfl
  | decodeError => rfl
  | serviceError =>
    rw [paginateLoop]
    norm_num
    cases h2 : attempt 2 (rrc / 2) with
    | ok r => rfl
    | decodeError => rfl
    | serviceError =>
      rw [paginateLoop]
      norm_num

/-- C3 (confirmed): on server-side service errors the fetch is retried with
the page size halved each time, up to 2 retries (so at most 3 attempts,
with page sizes `rrc`, `rrc/2`, `rrc/4`); if all three attempts raise a
service error the whole fetch fails fatally with a service error, returning
no partial data. -/
theorem paginate_retry_spec {R : Type} (attempt : Nat → Nat → FetchOutcome R)
    (rrc : Nat) :
    (∀ r : R, paginateThroughFeatures attempt rrc = .ok r →
      ∃ k, 1 ≤ k ∧ k ≤ 3 ∧ attempt k (rrc / 2 ^ (k - 1)) = .ok r) ∧
    (attempt 1 rrc = .serviceError → attempt 2 (rrc / 2) = .serviceError →
      attempt 3 (rrc / 2 / 2) = .serviceError →
      paginateThroughFeatures attempt rrc = .error .serviceFailure) := by
  have heval := paginateThroughFeatures_eval attempt rrc
  constructor
  · intro r h
    rw [heval] at h
    have h4 : rrc / 2 / 2 = rrc / 2 ^ 2 := by
      rw [Nat.div_div_eq_div_mul]
      norm_num
    cases h1 : attempt 1 rrc with
    | ok r1 =>
      rw [h1] at h
      simp only at h
      cases h
      exact ⟨1, by omega, by omega, by simpa using h1⟩
    | decodeError => rw [h1] at h; simp at h
    | serviceError =>
      rw [h1] at h
      simp only at h
      cases h2 : attempt 2 (rrc / 2) with
      | ok r2 =>
        rw [h2] at h
        simp only at h
        cases h
        exact ⟨2, by omega, by omega, by simpa using h2⟩
      | decodeError => rw [h2] at h; simp at h
      | serviceError =>
        rw [h2] at h
        simp only at h
        cases h3 : attempt 3 (rrc / 2 / 2) with
        | ok r3 =>
          rw [h3] at h
          simp only at h
          cases h
          exact ⟨3, by omega, by omega, by rw [← h4]; simpa using h3⟩
        | decodeError => rw [h3] at h; simp at h
        | serviceError => rw [h3] at h; simp at h
  · intro h1 h2 h3
    rw [heval, h1, h2, h3]

/-- C3 (witness): with every attempt failing, the fetch starting at page
size 100 fails fatally after the attempts at page sizes 100, 50, 25. -/
theorem paginate_retry_spec_witness :
    failingAttempt 1 100 = .serviceError ∧
    failingAttempt 2 (100 / 2) = .serviceError ∧
    failingAttempt 3 (100 / 2 / 2) = .serviceError ∧
    paginateThroughFeatures failingAttempt 100 = .error .serviceFailure :=
  ⟨rfl, rfl, rfl, (paginate_retry_spec failingAttempt 100).2 rfl rfl rfl⟩

/-! ## C10: one response per request, in order -/

/-- C10 (confirmed): the chunked `get_many` returns exactly one response
per request, in the same order as the input list — it equals the plain map
of the transport over the requests, and in particular has the same
length. -/
theorem getMany_one_response_per_request {Req Resp : Type}
    (process : Req → Resp) (chunkSize : Nat) (hc : 0 < chunkSize)
    (requests : List Req) :
    getMany process chunkSize requests = requests.map process ∧
    (getMany process chunkSize requests).length = requests.length := by
  have hmain : getMany process chunkSize requests = requests.map process := by
    unfold getMany
    rw [← List.map_flatten]
    unfold chunkList
    rw [chunksAux_flatten chunkSize hc _ _ le_rfl]
  exact ⟨hmain, by rw [hmain, List.length_map]⟩

/-- C10 (witness): three requests in chunks of 2 give the three mapped
responses in order. -/
theorem getMany_one_response_per_request_witness :
    0 < 2 ∧ getMany (fun n => n + 1) 2 [1, 2, 3] = [2, 3, 4] :=
  ⟨by decide,
    ((getMany_one_response_per_request (fun n => n + 1) 2 (by decide)
      [1, 2, 3]).1).trans (by decide)⟩

/-! ## C4: token distance against an empty token -/

/-- C4 (counterexample): the claim says a non-empty token matched against
an empty token always costs half its IDF weight instead of its raw length;
but `token_distance_idf` only takes the IDF branch when the token is a key
of `idf_map`, whose keys are lowercased — so the token `"California"` paired
with `""` costs its raw length 10, not `idf/2 = 3/2`. -/
theorem token_distance_idf_not_always_idf :
    token_distance_idf cmCalifornia idfCalifornia "California" "" = 10 ∧
    idfCalifornia "California" / 2 ≠ 10 := by
  constructor
  · unfold token_distance_idf
    rw [if_pos (Or.inr rfl)]
    have h1 : (if ("California" : String) ≠ "" then ("California" : String)
        else "") = "California" := by simp
    rw [h1]
    have h2 : cmCalifornia "California" = none := by decide
    rw [h2]
    have h3 : levenshtein "California" "" = 10 := by decide
    rw [h3]
    norm_num
  · unfold idfCalifornia
    norm_num

/-- C4 (amended): a pair of non-empty tokens always costs their Levenshtein
edit distance; a non-empty token paired with an empty token costs half its
IDF weight when it is a key of the IDF map, and otherwise its raw length
(its edit distance to the empty string). -/
theorem token_distance_idf_spec (cm : String → Option Nat) (idf : String → ℚ)
    (s1t s2t : String) :
    (s1t ≠ "" → s2t ≠ "" →
      token_distance_idf cm idf s1t s2t = (levenshtein s1t s2t : ℚ)) ∧
    (s1t ≠ "" → (cm s1t).isSome →
      token_distance_idf cm idf s1t "" = idf s1t / 2) ∧
    (s1t ≠ "" → cm s1t = none →
      token_distance_idf cm idf s1t "" = (s1t.length : ℚ)) ∧
    (s2t ≠ "" → (cm s2t).isSome →
      token_distance_idf cm idf "" s2t = idf s2t / 2) ∧
    (s2t ≠ "" → cm s2t = none →
      token_distance_idf cm idf "" s2t = (s2t.length : ℚ)) := by
  refine ⟨?_, ?_, ?_, ?_, ?_⟩
  · intro h1 h2
    rw [token_distance_idf, if_neg (by simp [h1, h2])]
  · intro h1 hsome
    rw [token_distance_idf, if_pos (by simp)]
    simp only [if_pos h1]
    obtain ⟨w, hw⟩ := Option.isSome_iff_exists.mp hsome
    simp [hw]
  · intro h1 hnone
    rw [token_distance_idf, if_pos (by simp)]
    simp only [if_pos h1]
    rw [hnone]
    simp [levenshtein_nil_right]
  · intro h2 hsome
    rw [token_distance_idf, if_pos (by simp)]
    have hne : ¬("" : String) ≠ "" := by simp
    simp only [if_neg hne]
    obtain ⟨w, hw⟩ := Option.isSome_iff_exists.mp hsome
    simp [hw]
  · intro h2 hnone
    rw [token_distance_idf, if_pos (by simp)]
    have hne : ¬("" : String) ≠ "" := by simp
    simp only [if_neg hne]
    rw [hnone]
    have : levenshtein "" s2t = s2t.length := by
      unfold levenshtein
      have hd : ("" : String).data = [] := rfl
      rw [hd]
      cases hs : s2t.data with
      | nil =>
        have : s2t.length = 0 := by
          simp [String.length, hs]
        simp [levFuel, this]
      | cons c cs =>
        simp only [levFuel]
        rw [← hs]
        rfl
    rw [this]

/-- C4 (witness): the token `"york"`, present in the IDF map, paired with
the empty token costs half its IDF weight `4/2 = 2`. -/
theorem token_distance_idf_spec_witness :
    ("york" ≠ "" ∧ ((fun t => if t = "york" then some 1 else none) "york").isSome) ∧
    token_distance_idf (fun t => if t = "york" then some 1 else none)
      (fun _ => (4 : ℚ)) "york" "" = (4 : ℚ) / 2 :=
  ⟨⟨by decide, by decide⟩,
    (token_distance_idf_spec (fun t => if t = "york" then some 1 else none)
      (fun _ => (4 : ℚ)) "york" "x").2.1 (by decide) (by decide)⟩

/-! ## C6: self-match score -/

/-- C6 (counterexample): the claim says every non-empty name scores exactly
1.0 against itself; but a name with trailing punctuation tokenizes with an
empty token, and when that empty token carries a positive IDF weight the
optimal assignment pairs it with itself at cost `idf("")/2 > 0`, so
`custom_scorer("a.", "a.") = 33/47 < 1`. -/
theorem custom_scorer_self_not_one :
    custom_scorer cmPunct idfPunct "a." "a." ≠ 1 := by
  have htok : tokenize_feature_name "a." = ["a", ""] := by decide
  have hperm : allPerms (["a", ""] : List String) = [["a", ""], ["", "a"]] := by
    decide
  have hcost_aa : token_distance_idf cmPunct idfPunct "a" "a" = 0 := by
    unfold token_distance_idf
    rw [if_neg (by simp)]
    have : levenshtein "a" "a" = 0 := by decide
    rw [this]
    norm_num
  have hifa : (if ("a" : String) ≠ "" then ("a" : String) else "") = "a" := by
    simp
  have hife : (if ("" : String) ≠ "" then ("" : String) else "a") = "a" := by
    simp
  have hifee : (if ("" : String) ≠ "" then ("" : String) else "") = "" := by
    simp
  have hcm_a : cmPunct "a" = some 1 := by decide
  have hcm_e : cmPunct "" = some 1 := by decide
  have hidf_a : idfPunct "a" = 7/10 := by unfold idfPunct; norm_num
  have hidf_e : idfPunct "" = 7/10 := by unfold idfPunct; norm_num
  have hcost_ae : token_distance_idf cmPunct idfPunct "a" "" = 7/20 := by
    unfold token_distance_idf
    rw [if_pos (Or.inr rfl), hifa, hcm_a]
    rw [hidf_a]
    norm_num
  have hcost_ea : token_distance_idf cmPunct idfPunct "" "a" = 7/20 := by
    unfold token_distance_idf
    rw [if_pos (Or.inl rfl), hife, hcm_a]
    rw [hidf_a]
    norm_num
  have hcost_ee : token_distance_idf cmPunct idfPunct "" "" = 7/20 := by
    unfold token_distance_idf
    rw [if_pos (Or.inl rfl), hifee, hcm_e]
    rw [hidf_e]
    norm_num
  have hsd : set_distance cmPunct idfPunct ["a", ""] ["a", ""] = 14/47 := by
    unfold set_distance assignmentMin
    simp only [hperm, List.map_cons, List.map_nil, List.length_cons,
      List.length_nil, max_self, Nat.sub_self, List.replicate_zero,
      List.append_nil, costSum, hcost_aa, hcost_ae, hcost_ea, hcost_ee,
      listMinQ, String.length]
    norm_num
  unfold custom_scorer
  rw [htok]
  rw [if_neg (by decide)]
  rw [hsd]
  norm_num

theorem token_distance_idf_nonneg (cm : String → Option Nat)
    (idf : String → ℚ) (hidf : ∀ t, 0 ≤ idf t) (a b : String) :
    0 ≤ token_distance_idf cm idf a b := by
  unfold token_distance_idf
  by_cases hsplit : a = "" ∨ b = ""
  · rw [if_pos hsplit]
    rcases h : cm (if a ≠ "" then a else b) with _ | w
    · simp only [h]
      exact Nat.cast_nonneg _
    · simp only [h]
      exact div_nonneg (hidf _) (by norm_num)
  · rw [if_neg hsplit]
    exact Nat.cast_nonneg _

/-- C6 (amended): the self-score is exactly 1 in the single-token case, and
in the multi-token case whenever any empty token in the name's token set
carries IDF weight 0 or is absent from the IDF map — in particular, for any
name whose tokenization has no empty token (no leading/trailing
punctuation).  IDF weights are nonnegative, as at the call site
(`log(N/count)` with `count ≤ N`). -/
theorem custom_scorer_self (cm : String → Option Nat) (idf : String → ℚ)
    (s : String) (hidf : ∀ t, 0 ≤ idf t)
    (hempty : "" ∈ tokenize_feature_name s → (cm "").isSome → idf "" = 0) :
    custom_scorer cm idf s s = 1 := by
  unfold custom_scorer
  by_cases hone : (tokenize_feature_name s).length = 1
  · rw [if_pos ⟨hone, hone⟩]
    exact levRatio_self s
  · rw [if_neg (by simp [hone])]
    have hcost0 : ∀ t ∈ tokenize_feature_name s,
        token_distance_idf cm idf t t = 0 := by
      intro t ht
      by_cases hte : t = ""
      · subst hte
        unfold token_distance_idf
        rw [if_pos (Or.inl rfl)]
        have hifne : (if ("" : String) ≠ "" then ("" : String) else "") = "" := by
          simp
        rw [hifne]
        rcases hcm : cm "" with _ | w
        · simp only [hcm]
          rw [levenshtein_self]
          norm_num
        · simp only [hcm]
          rw [hempty ht (by simp [hcm])]
          norm_num
      · unfold token_distance_idf
        rw [if_neg (by simp [hte])]
        rw [levenshtein_self]
        simp
    have hsld : set_distance cm idf (tokenize_feature_name s)
        (tokenize_feature_name s) = 0 := by
      unfold set_distance assignmentMin
      simp only [max_self, Nat.sub_self, List.replicate_zero, List.append_nil]
      set l := tokenize_feature_name s with hl
      have hself_mem : l ∈ allPerms l := self_mem_allPerms l
      have hmin_le : listMinQ ((allPerms l).map
          (fun p => costSum (token_distance_idf cm idf) l p)) ≤ 0 := by
        have := listMinQ_le ((allPerms l).map
            (fun p => costSum (token_distance_idf cm idf) l p))
          (costSum (token_distance_idf cm idf) l l)
          (List.mem_map.mpr ⟨l, hself_mem, rfl⟩)
        rw [costSum_self _ _ hcost0] at this
        exact this
      have hmin_ge : 0 ≤ listMinQ ((allPerms l).map
          (fun p => costSum (token_distance_idf cm idf) l p)) := by
        have hmem := listMinQ_mem ((allPerms l).map
            (fun p => costSum (token_distance_idf cm idf) l p))
          (by
            intro hnil
            rw [List.map_eq_nil_iff] at hnil
            rw [hnil] at hself_mem
            simp at hself_mem)
        rcases List.mem_map.mp hmem with ⟨perm, _, hperm⟩
        rw [← hperm]
        exact costSum_nonneg _ (token_distance_idf_nonneg cm idf hidf) l perm
      rw [le_antisymm hmin_le hmin_ge]
      simp
    rw [hsld]
    norm_num

/-- C6 (witness): a punctuation-free two-token name scores 1 against
itself. -/
theorem custom_scorer_self_witness :
    custom_scorer (fun _ => none) (fun _ => (0 : ℚ)) "New York" "New York" = 1 :=
  custom_scorer_self (fun _ => none) (fun _ => (0 : ℚ)) "New York"
    (fun _ => le_refl 0) (by decide)

/-! ## C7: area-threshold spatial filter -/

/-- C7 (counterexample): the claim says that with `threshold = 0` the filter
returns no candidate whose intersection is empty; but the comparison is
`intersections.area/gdf.area >= area_threshold`, and an empty intersection
has ratio `0 ≥ 0`, so the candidate is returned. -/
theorem spatialFilter_zero_keeps_empty_intersection :
    spatialFilter 0 [⟨"w", 1, 0⟩] = [⟨"w", 1, 0⟩] ∧
    (⟨"w", 1, 0⟩ : CandidateFeature).interArea = 0 := by
  constructor
  · unfold spatialFilter
    rw [List.filter_eq_self]
    intro c hc
    rw [List.mem_singleton] at hc
    subst hc
    simp only [decide_eq_true_eq]
    show (0 : ℚ) ≤ 0 / 1
    norm_num
  · rfl

/-- C7 (amended): a candidate is included iff
`interArea / area ≥ threshold`, with the comparison inclusive; with
`threshold = 0` every candidate is returned (an empty intersection has
ratio 0 ≥ 0); a strictly positive threshold excludes every
empty-intersection candidate; and with `threshold = 1` exactly the fully
contained candidates (`interArea = area`) are returned. -/
theorem spatialFilter_threshold_spec (threshold : ℚ)
    (cands : List CandidateFeature)
    (harea : ∀ c ∈ cands, 0 < c.area)
    (hinter : ∀ c ∈ cands, 0 ≤ c.interArea ∧ c.interArea ≤ c.area) :
    (∀ c ∈ cands,
      (c ∈ spatialFilter threshold cands ↔ threshold ≤ c.interArea / c.area)) ∧
    spatialFilter 0 cands = cands ∧
    (0 < threshold → ∀ c ∈ spatialFilter threshold cands, 0 < c.interArea) ∧
    (∀ c, c ∈ spatialFilter 1 cands ↔ c ∈ cands ∧ c.interArea = c.area) := by
  refine ⟨?_, ?_, ?_, ?_⟩
  · intro c hc
    unfold spatialFilter
    rw [List.mem_filter]
    simp [hc]
  · unfold spatialFilter
    rw [List.filter_eq_self]
    intro c hc
    simp only [decide_eq_true_eq]
    exact div_nonneg (hinter c hc).1 (le_of_lt (harea c hc))
  · intro ht c hc
    unfold spatialFilter at hc
    rw [List.mem_filter] at hc
    have hratio : threshold ≤ c.interArea / c.area := by
      simpa using hc.2
    have hpos : 0 < c.interArea / c.area := lt_of_lt_of_le ht hratio
    rcases div_pos_iff.mp hpos with ⟨h1, _⟩ | ⟨_, h2⟩
    · exact h1
    · exact absurd (harea c hc.1) (by linarith)
  · intro c
    unfold spatialFilter
    rw [List.mem_filter]
    constructor
    · rintro ⟨hc, hratio⟩
      simp only [decide_eq_true_eq] at hratio
      have hle : c.area ≤ c.interArea := (one_le_div (harea c hc)).mp hratio
      exact ⟨hc, le_antisymm (hinter c hc).2 hle⟩
    · rintro ⟨hc, heq⟩
      refine ⟨hc, ?_⟩
      simp only [decide_eq_true_eq]
      rw [heq]
      rw [div_self (ne_of_gt (harea c hc))]

/-- C7 (witness): with two candidates of area 2 — intersections 1 and 2 —
threshold 1 keeps exactly the fully contained one. -/
theorem spatialFilter_threshold_spec_witness :
    ((⟨"b", 2, 2⟩ : CandidateFeature) ∈
        spatialFilter 1 [⟨"a", 2, 1⟩, ⟨"b", 2, 2⟩] ↔
      (⟨"b", 2, 2⟩ : CandidateFeature) ∈
          ([⟨"a", 2, 1⟩, ⟨"b", 2, 2⟩] : List CandidateFeature) ∧
        (⟨"b", 2, 2⟩ : CandidateFeature).interArea =
          (⟨"b", 2, 2⟩ : CandidateFeature).area) :=
  (spatialFilter_threshold_spec 1 [⟨"a", 2, 1⟩, ⟨"b", 2, 2⟩]
    (by
      intro c hc
      simp only [List.mem_cons, List.not_mem_nil, or_false] at hc
      rcases hc with h | h <;> subst h <;> norm_num)
    (by
      intro c hc
      simp only [List.mem_cons, List.not_mem_nil, or_false] at hc
      rcases hc with h | h <;> subst h <;> constructor <;> norm_num)).2.2.2
    ⟨"b", 2, 2⟩

/-! ## C9: memoized area resolution -/

/-- C9 (confirmed): the bound resolver is memoized and idempotent — it is a
no-op (and performs no fetch) on an already-resolved area; after any call
the resolved flag is set, so a second call leaves every field unchanged and
performs no fetch; on a fresh area the first call performs the fetch. -/
theorem area_resolution_memoized {G : Type} (attrMap : String → String)
    (fetched : FetchedFeature G) (clip : G → G) (clipToCb : Bool) :
    (∀ s : AreaState G, s.attributesAreSet = true →
      setAttributesTiger attrMap fetched clip clipToCb s = (s, false)) ∧
    (∀ s : AreaState G,
      ((setAttributesTiger attrMap fetched clip clipToCb s).1).attributesAreSet
        = true) ∧
    (∀ s : AreaState G,
      setAttributesTiger attrMap fetched clip clipToCb
          ((setAttributesTiger attrMap fetched clip clipToCb s).1)
        = ((setAttributesTiger attrMap fetched clip clipToCb s).1, false)) ∧
    (setAttributesTiger attrMap fetched clip clipToCb (initialArea G)).2
      = true := by
  have hset : ∀ s : AreaState G,
      ((setAttributesTiger attrMap fetched clip clipToCb s).1).attributesAreSet
        = true := by
    intro s
    unfold setAttributesTiger
    by_cases h : s.attributesAreSet = true
    · rw [if_pos h]
      exact h
    · rw [if_neg h]
  have hnoop : ∀ s : AreaState G, s.attributesAreSet = true →
      setAttributesTiger attrMap fetched clip clipToCb s = (s, false) := by
    intro s h
    unfold setAttributesTiger
    rw [if_pos h]
  refine ⟨hnoop, hset, ?_, ?_⟩
  · intro s
    exact hnoop _ (hset s)
  · rfl

/-- C9 (witness): a fresh area is fetched once; a resolver call on an
already-resolved state is a no-op with no fetch. -/
theorem area_resolution_memoized_witness :
    (setAttributesTiger id ⟨[("NAME", "Alabama"), ("STATE", "01")], 7⟩ id true
        (initialArea Nat)).2 = true ∧
    (⟨some "Alabama", true, [("STATE", "01")], some 7⟩
        : AreaState Nat).attributesAreSet = true ∧
    setAttributesTiger id ⟨[("NAME", "Alabama"), ("STATE", "01")], 7⟩ id true
        (⟨some "Alabama", true, [("STATE", "01")], some 7⟩ : AreaState Nat)
      = ((⟨some "Alabama", true, [("STATE", "01")], some 7⟩ : AreaState Nat),
        false) :=
  ⟨(area_resolution_memoized id ⟨[("NAME", "Alabama"), ("STATE", "01")], 7⟩ id
      true).2.2.2,
    rfl,
    (area_resolution_memoized id ⟨[("NAME", "Alabama"), ("STATE", "01")], 7⟩ id
      true).1 ⟨some "Alabama", true, [("STATE", "01")], some 7⟩ rfl⟩

/-! ## C5: acceptance logic of `get_area_by_name` -/

/-- C5 (confirmed): the ranked candidates all score at least the 0.8
cutoff; with no candidate the result is the no-match error (with example
names); with exactly one candidate, or a top score `≥ 0.99`, the top
candidate is accepted; with a top score `> 0.95` and a margin `> 0.05`
over the runner-up the top candidate is accepted; otherwise, when the
missing-token refinement does not produce exactly one confident match, the
result is the ambiguous-match error carrying the top candidates. -/
theorem get_area_by_name_acceptance (scored : List ScoredMatch)
    (refined : List (List ScoredMatch)) (ex : List String) :
    (∀ m ∈ extractBests scored 20 ((8 : ℚ)/10), (8 : ℚ)/10 ≤ m.2.1) ∧
    (extractBests scored 20 ((8 : ℚ)/10) = [] →
      get_area_by_name_match scored refined ex = .noMatch ex) ∧
    (∀ b0, extractBests scored 20 ((8 : ℚ)/10) = [b0] →
      get_area_by_name_match scored refined ex = .accepted b0.2.2) ∧
    (∀ b0 b1 r, extractBests scored 20 ((8 : ℚ)/10) = b0 :: b1 :: r →
      (99 : ℚ)/100 ≤ b0.2.1 →
      get_area_by_name_match scored refined ex = .accepted b0.2.2) ∧
    (∀ b0 b1 r, extractBests scored 20 ((8 : ℚ)/10) = b0 :: b1 :: r →
      ¬((99 : ℚ)/100 ≤ b0.2.1) →
      (95 : ℚ)/100 < b0.2.1 ∧ (5 : ℚ)/100 < b0.2.1 - b1.2.1 →
      get_area_by_name_match scored refined ex = .accepted b0.2.2) ∧
    (∀ b0 b1 r, extractBests scored 20 ((8 : ℚ)/10) = b0 :: b1 :: r →
      ¬((99 : ℚ)/100 ≤ b0.2.1) →
      ¬((95 : ℚ)/100 < b0.2.1 ∧ (5 : ℚ)/100 < b0.2.1 - b1.2.1) →
      (refined.filter (fun ms => refinement_accepts ms)).length ≠ 1 →
      get_area_by_name_match scored refined ex =
        .ambiguous ((b0 :: b1 :: r).take 10)) := by
  refine ⟨?_, ?_, ?_, ?_, ?_, ?_⟩
  · intro m hm
    unfold extractBests at hm
    have hm1 := List.mem_of_mem_take hm
    have hm2 := (List.perm_insertionSort
      (fun a b : ScoredMatch => b.2.1 ≤ a.2.1) _).mem_iff.mp hm1
    have hm3 := List.mem_filter.mp hm2
    simpa using hm3.2
  · intro heq
    unfold get_area_by_name_match
    rw [heq]
    rfl
  · intro b0 heq
    unfold get_area_by_name_match
    rw [heq]
    rfl
  · intro b0 b1 r heq h99
    unfold get_area_by_name_match
    rw [heq]
    simp only [get_area_by_name_decision]
    rw [if_pos h99]
  · intro b0 b1 r heq h99 hmargin
    unfold get_area_by_name_match
    rw [heq]
    simp only [get_area_by_name_decision]
    rw [if_neg h99, if_pos hmargin]
  · intro b0 b1 r heq h99 hmargin hlen
    unfold get_area_by_name_match
    rw [heq]
    simp only [get_area_by_name_decision]
    rw [if_neg h99, if_neg hmargin]
    rcases hfil : refined.filter (fun ms => refinement_accepts ms)
      with _ | ⟨ms, rest2⟩
    · rfl
    · rcases rest2 with _ | ⟨ms2, rest3⟩
      · rw [hfil] at hlen
        simp at hlen
      · rfl

/-- C5 (witness): a detailed county query scoring 1.0 against its record,
with a 0.85 runner-up, is accepted via the `≥ 0.99` rule. -/
theorem get_area_by_name_acceptance_witness :
    (99 : ℚ)/100 ≤ (1 : ℚ) ∧
    get_area_by_name_match
      [("Los Angeles County, California", (1 : ℚ), "06037"),
        ("Lake County, California", (85 : ℚ)/100, "06033")] [] ["x"]
      = .accepted "06037" := by
  have heq : extractBests
      [("Los Angeles County, California", (1 : ℚ), "06037"),
        ("Lake County, California", (85 : ℚ)/100, "06033")] 20 ((8 : ℚ)/10)
      = [("Los Angeles County, California", (1 : ℚ), "06037"),
        ("Lake County, California", (85 : ℚ)/100, "06033")] := by
    norm_num [extractBests, List.filter, List.insertionSort, List.orderedInsert]
  exact ⟨by norm_num,
    (get_area_by_name_acceptance
      [("Los Angeles County, California", (1 : ℚ), "06037"),
        ("Lake County, California", (85 : ℚ)/100, "06033")] [] ["x"]).2.2.2.1
      _ _ _ heq (by norm_num)⟩

/-! ## C8: helper lemmas on filters, padding and the requires walk -/

theorem lookupF_cons (k v g : String) (fs : List (String × String)) :
    lookupF ((k, v) :: fs) g = if k = g then some v else lookupF fs g := by
  unfold lookupF
  by_cases h : k = g
  · rw [List.find?_cons_of_pos _ (by simp [h])]
    rw [if_pos h]
  · rw [List.find?_cons_of_neg _ (by simp [h])]
    rw [if_neg h]

theorem lookupF_some_mem (fs : List (String × String)) (g v : String)
    (h : lookupF fs g = some v) : ∃ p ∈ fs, p.2 = v := by
  unfold lookupF at h
  cases hf : fs.find? (fun p => p.1 = g) with
  | none => rw [hf] at h; cases h
  | some p =>
    rw [hf] at h
    cases h
    exact ⟨p, List.mem_of_find?_eq_some hf, rfl⟩

theorem lookupF_pad (fs : List (String × String)) (g : String) :
    lookupF (pad_geography_filters fs) g
      = (lookupF fs g).map (fun v => if v = "*" then v else padValue g v) := by
  induction fs with
  | nil => rfl
  | cons p fs ih =>
    rcases p with ⟨k, v⟩
    unfold pad_geography_filters at ih ⊢
    simp only [List.map_cons]
    rw [lookupF_cons, lookupF_cons]
    by_cases h : k = g
    · subst h
      rw [if_pos rfl, if_pos rfl]
      rfl
    · rw [if_neg h, if_neg h]
      exact ih

theorem padValue_ne_star (g v : String)
    (hdig : ∀ c ∈ v.data, c.isDigit) : padValue g v ≠ "*" := by
  have hstar_digit : ('*' : Char).isDigit = false := by decide
  have hall : ∀ c ∈ (padValue g v).data, c.isDigit := by
    unfold padValue
    cases hw : padWidth g with
    | none => exact hdig
    | some w =>
      unfold zfill stripZeros
      intro c hc
      by_cases hemp : (v.data.dropWhile (fun c => c = '0')).isEmpty
      · rw [if_pos hemp] at hc
        have : c ∈ List.replicate (w - ("0" : String).length) '0'
            ++ ("0" : String).data := hc
        rcases List.mem_append.mp this with h | h
        · rw [List.eq_of_mem_replicate h]
          decide
        · have : c = '0' := by
            simpa using h
          rw [this]
          decide
      · rw [if_neg hemp] at hc
        have : c ∈ List.replicate
              (w - (String.mk (v.data.dropWhile (fun c => c = '0'))).length) '0'
            ++ v.data.dropWhile (fun c => c = '0') := hc
        rcases List.mem_append.mp this with h | h
        · rw [List.eq_of_mem_replicate h]
          decide
        · exact hdig c ((List.dropWhile_sublist _).mem h)
  intro hstar
  have hmem : '*' ∈ (padValue g v).data := by
    rw [hstar]
    decide
  have := hall '*' hmem
  rw [hstar_digit] at this
  cases this

/-- Padding a numeric-or-wildcard filter value preserves whether it is the
wildcard. -/
theorem pad_star_iff (fs : List (String × String)) (g v : String)
    (hnum : ∀ p ∈ fs, p.2 = "*" ∨ (p.2 ≠ "" ∧ ∀ c ∈ p.2.data, c.isDigit))
    (hl : lookupF fs g = some v) :
    ((if v = "*" then v else padValue g v) = "*" ↔ v = "*") := by
  by_cases hv : v = "*"
  · rw [if_pos hv]
  · rw [if_neg hv]
    obtain ⟨p, hp, hpv⟩ := lookupF_some_mem fs g v hl
    rcases hnum p hp with h | ⟨h1, h2⟩
    · rw [hpv] at h
      exact absurd h hv
    · rw [hpv] at h1 h2
      simp only [hv, iff_false]
      exact padValue_ne_star g v h2

theorem pinnedFilter_pad_iff (fs : List (String × String)) (g : String)
    (hnum : ∀ p ∈ fs, p.2 = "*" ∨ (p.2 ≠ "" ∧ ∀ c ∈ p.2.data, c.isDigit)) :
    pinnedFilter (pad_geography_filters fs) g ↔ pinnedFilter fs g := by
  unfold pinnedFilter
  rw [lookupF_pad]
  cases hl : lookupF fs g with
  | none => simp
  | some v =>
    have hm : Option.map (fun v => if v = "*" then v else padValue g v) (some v)
        = some (if v = "*" then v else padValue g v) := rfl
    rw [hm]
    constructor
    · rintro ⟨v', hv', hne⟩
      injection hv' with hv2
      subst hv2
      refine ⟨v, rfl, fun hstar => hne ?_⟩
      rw [pad_star_iff fs g v hnum hl]
      exact hstar
    · rintro ⟨v', hv', hne⟩
      injection hv' with hv2
      subst hv2
      exact ⟨_, rfl, fun hstar =>
        hne ((pad_star_iff fs g v hnum hl).mp hstar)⟩

theorem lookupF_filter_ne (fs : List (String × String)) (name g : String)
    (h : g ≠ name) :
    lookupF (fs.filter (fun p => p.1 ≠ name)) g = lookupF fs g := by
  induction fs with
  | nil => rfl
  | cons p fs ih =>
    rcases p with ⟨k, v⟩
    by_cases hk : k = name
    · rw [List.filter_cons_of_neg (by simp [hk])]
      rw [ih, lookupF_cons, if_neg (fun hkg => h (by rw [← hkg, hk]))]
    · rw [List.filter_cons_of_pos (by simp [hk])]
      rw [lookupF_cons, lookupF_cons, ih]

theorem map_eq_error {ε α β : Type} (f : α → β) (x : Except ε α) (e : ε) :
    Except.map f x = .error e ↔ x = .error e := by
  cases x <;> simp [Except.map]

theorem exists_error_map {ε α β : Type} (f : α → β) (x : Except ε α) :
    (∃ e, Except.map f x = .error e) ↔ ∃ e, x = .error e := by
  cases x <;> simp [Except.map]

theorem exists_split_cons {α : Type} (g₀ : α) (rest : List α)
    (C C' : α → List α → Prop)
    (h₀ : ¬ C g₀ [])
    (hstep : ∀ g l1, C g (g₀ :: l1) ↔ C' g l1) :
    (∃ l1 g l2, g₀ :: rest = l1 ++ g :: l2 ∧ C g l1) ↔
      (∃ l1 g l2, rest = l1 ++ g :: l2 ∧ C' g l1) := by
  constructor
  · rintro ⟨l1, g, l2, hsplit, hC⟩
    cases l1 with
    | nil =>
      simp only [List.nil_append, List.cons.injEq] at hsplit
      obtain ⟨hg, _⟩ := hsplit
      subst hg
      exact absurd hC h₀
    | cons x l1' =>
      simp only [List.cons_append, List.cons.injEq] at hsplit
      obtain ⟨hx, hrest⟩ := hsplit
      subst hx
      exact ⟨l1', g, l2, hrest, (hstep g l1').mp hC⟩
  · rintro ⟨l1, g, l2, hsplit, hC⟩
    exact ⟨g₀ :: l1, g, l2, by rw [hsplit, List.cons_append],
      (hstep g l1).mpr hC⟩

theorem exists_split_reverse {α : Type} (L : List α) (P : α → List α → Prop) :
    (∃ l1 g l2, L.reverse = l1 ++ g :: l2 ∧ P g l1) ↔
      ∃ r1 g r2, L = r1 ++ g :: r2 ∧ P g r2.reverse := by
  constructor
  · rintro ⟨l1, g, l2, hsplit, hP⟩
    refine ⟨l2.reverse, g, l1.reverse, ?_, by simpa using hP⟩
    have h := congrArg List.reverse hsplit
    rw [List.reverse_reverse] at h
    rw [h]
    simp [List.reverse_append]
  · rintro ⟨r1, g, r2, hsplit, hP⟩
    refine ⟨r2.reverse, g, r1.reverse, ?_, hP⟩
    rw [hsplit]
    simp [List.reverse_append]

/-- The innermost-first walk of `_build_geography_params` fails exactly when
some visited level is not pinned, and is either not wildcard-eligible or
would be a wildcard while `has_specified_geo` was set by the initial flag or
by a previously visited (more inner) pinned level. -/
theorem buildInParams_error_iff (wc : List String) (fs : List (String × String)) :
    ∀ (L : List String) (hs : Bool),
      (∃ e, buildInParams wc fs L hs = .error e) ↔
        ∃ l1 g l2, L = l1 ++ g :: l2 ∧ ¬ pinnedFilter fs g ∧
          (g ∉ wc ∨ hs = true ∨ ∃ g' ∈ l1, pinnedFilter fs g') := by
  intro L
  induction L with
  | nil =>
    intro hs
    constructor
    · rintro ⟨e, he⟩
      simp [buildInParams] at he
    · rintro ⟨l1, g, l2, hsplit, _⟩
      exact absurd hsplit (by simp)
  | cons g₀ rest ih =>
    intro hs
    rcases hlk : lookupF fs g₀ with _ | v
    · -- level not supplied
      have hnp : ¬ pinnedFilter fs g₀ := by
        rintro ⟨w, hw, _⟩
        rw [hlk] at hw
        cases hw
      by_cases hw : g₀ ∈ wc
      · by_cases hhs : hs = true
        · -- wildcard with an inner level already pinned: error
          refine iff_of_true ⟨.wildcardConflict g₀, ?_⟩
            ⟨[], g₀, rest, rfl, hnp, Or.inr (Or.inl hhs)⟩
          simp only [buildInParams, hlk]
          rw [if_pos hw, if_pos hhs]
        · -- wildcard, nothing pinned yet: recurse with the same flag
          have hexpand : buildInParams wc fs (g₀ :: rest) hs
              = (buildInParams wc fs rest hs).map (fun l => (g₀, "*") :: l) := by
            simp only [buildInParams, hlk]
            rw [if_pos hw, if_neg hhs]
          rw [hexpand, exists_error_map, ih hs]
          exact (exists_split_cons g₀ rest _ _
            (by
              rintro ⟨hnp', hbad⟩
              rcases hbad with h | h | h
              · exact h hw
              · exact hhs h
              · simp at h)
            (by
              intro g l1
              constructor
              · rintro ⟨h1, h2⟩
                refine ⟨h1, ?_⟩
                rcases h2 with h | h | h
                · exact Or.inl h
                · exact Or.inr (Or.inl h)
                · rcases List.exists_mem_cons_iff _ _ _ |>.mp h with h' | h'
                  · exact absurd h' hnp
                  · exact Or.inr (Or.inr h')
              · rintro ⟨h1, h2⟩
                refine ⟨h1, ?_⟩
                rcases h2 with h | h | h
                · exact Or.inl h
                · exact Or.inr (Or.inl h)
                · exact Or.inr (Or.inr
                    (List.exists_mem_cons_iff _ _ _ |>.mpr (Or.inr h))))).symm
      · -- not supplied and not wildcard-eligible: error naming the level
        refine iff_of_true ⟨.mustSupply g₀, ?_⟩
          ⟨[], g₀, rest, rfl, hnp, Or.inl hw⟩
        simp only [buildInParams, hlk]
        rw [if_neg hw]
    · by_cases hv : v = "*"
      · -- supplied as the wildcard
        subst hv
        have hnp : ¬ pinnedFilter fs g₀ := by
          rintro ⟨w, hw, hne⟩
          rw [hlk] at hw
          cases hw
          exact hne rfl
        by_cases hw : g₀ ∈ wc
        · by_cases hhs : hs = true
          · refine iff_of_true ⟨.wildcardConflict g₀, ?_⟩
              ⟨[], g₀, rest, rfl, hnp, Or.inr (Or.inl hhs)⟩
            simp only [buildInParams, hlk]
            rw [if_pos trivial, if_pos hw, if_pos hhs]
          · have hexpand : buildInParams wc fs (g₀ :: rest) hs
                = (buildInParams wc fs rest hs).map
                  (fun l => (g₀, "*") :: l) := by
              simp only [buildInParams, hlk]
              rw [if_pos trivial, if_pos hw, if_neg hhs]
            rw [hexpand, exists_error_map, ih hs]
            exact (exists_split_cons g₀ rest _ _
              (by
                rintro ⟨hnp', hbad⟩
                rcases hbad with h | h | h
                · exact h hw
                · exact hhs h
                · simp at h)
              (by
                intro g l1
                constructor
                · rintro ⟨h1, h2⟩
                  refine ⟨h1, ?_⟩
                  rcases h2 with h | h | h
                  · exact Or.inl h
                  · exact Or.inr (Or.inl h)
                  · rcases List.exists_mem_cons_iff _ _ _ |>.mp h with h' | h'
                    · exact absurd h' hnp
                    · exact Or.inr (Or.inr h')
                · rintro ⟨h1, h2⟩
                  refine ⟨h1, ?_⟩
                  rcases h2 with h | h | h
                  · exact Or.inl h
                  · exact Or.inr (Or.inl h)
                  · exact Or.inr (Or.inr
                      (List.exists_mem_cons_iff _ _ _ |>.mpr
                        (Or.inr h))))).symm
        · refine iff_of_true ⟨.cannotBeWildcard g₀, ?_⟩
            ⟨[], g₀, rest, rfl, hnp, Or.inl hw⟩
          simp only [buildInParams, hlk]
          rw [if_pos trivial, if_neg hw]
      · -- pinned: recurse with `has_specified_geo = true`
        have hp : pinnedFilter fs g₀ := ⟨v, hlk, hv⟩
        have hexpand : buildInParams wc fs (g₀ :: rest) hs
            = (buildInParams wc fs rest true).map (fun l => (g₀, v) :: l) := by
          simp only [buildInParams, hlk]
          rw [if_neg hv]
        rw [hexpand, exists_error_map, ih true]
        exact (exists_split_cons g₀ rest _ _
          (by rintro ⟨hnp', _⟩; exact hnp' hp)
          (by
            intro g l1
            constructor
            · rintro ⟨h1, _⟩
              exact ⟨h1, Or.inr (Or.inl rfl)⟩
            · rintro ⟨h1, _⟩
              exact ⟨h1, Or.inr (Or.inr
                (List.exists_mem_cons_iff _ _ _ |>.mpr (Or.inl hp)))⟩)).symm

/-- The two "level missing / not wildcard-eligible" errors of the walk name
a level of the walked list that is absent (resp. supplied as `'*'`) and not
wildcard-eligible. -/
theorem buildInParams_error_cases (wc : List String)
    (fs : List (String × String)) :
    ∀ (L : List String) (hs : Bool) (g : String),
      (buildInParams wc fs L hs = .error (.mustSupply g) →
        g ∈ L ∧ lookupF fs g = none ∧ g ∉ wc) ∧
      (buildInParams wc fs L hs = .error (.cannotBeWildcard g) →
        g ∈ L ∧ lookupF fs g = some "*" ∧ g ∉ wc) := by
  intro L
  induction L with
  | nil =>
    intro hs g
    constructor <;> (intro h; simp [buildInParams] at h)
  | cons g₀ rest ih =>
    intro hs g
    rcases hlk : lookupF fs g₀ with _ | v
    · by_cases hw : g₀ ∈ wc
      · by_cases hhs : hs = true
        · have hred : buildInParams wc fs (g₀ :: rest) hs
              = .error (.wildcardConflict g₀) := by
            simp only [buildInParams, hlk]
            rw [if_pos hw, if_pos hhs]
          constructor <;> (intro h; rw [hred] at h; simp at h)
        · have hred : buildInParams wc fs (g₀ :: rest) hs
              = (buildInParams wc fs rest hs).map (fun l => (g₀, "*") :: l) := by
            simp only [buildInParams, hlk]
            rw [if_pos hw, if_neg hhs]
          constructor <;> intro h
          · rw [hred, map_eq_error] at h
            obtain ⟨h1, h2, h3⟩ := (ih hs g).1 h
            exact ⟨List.mem_cons_of_mem _ h1, h2, h3⟩
          · rw [hred, map_eq_error] at h
            obtain ⟨h1, h2, h3⟩ := (ih hs g).2 h
            exact ⟨List.mem_cons_of_mem _ h1, h2, h3⟩
      · have hred : buildInParams wc fs (g₀ :: rest) hs
            = .error (.mustSupply g₀) := by
          simp only [buildInParams, hlk]
          rw [if_neg hw]
        constructor <;> intro h
        · rw [hred] at h
          simp only [Except.error.injEq, GeoBuildError.mustSupply.injEq] at h
          subst h
          exact ⟨List.mem_cons_self _ _, hlk, hw⟩
        · rw [hred] at h
          simp at h
    · by_cases hv : v = "*"
      · subst hv
        by_cases hw : g₀ ∈ wc
        · by_cases hhs : hs = true
          · have hred : buildInParams wc fs (g₀ :: rest) hs
                = .error (.wildcardConflict g₀) := by
              simp only [buildInParams, hlk]
              rw [if_pos trivial, if_pos hw, if_pos hhs]
            constructor <;> (intro h; rw [hred] at h; simp at h)
          · have hred : buildInParams wc fs (g₀ :: rest) hs
                = (buildInParams wc fs rest hs).map
                  (fun l => (g₀, "*") :: l) := by
              simp only [buildInParams, hlk]
              rw [if_pos trivial, if_pos hw, if_neg hhs]
            constructor <;> intro h
            · rw [hred, map_eq_error] at h
              obtain ⟨h1, h2, h3⟩ := (ih hs g).1 h
              exact ⟨List.mem_cons_of_mem _ h1, h2, h3⟩
            · rw [hred, map_eq_error] at h
              obtain ⟨h1, h2, h3⟩ := (ih hs g).2 h
              exact ⟨List.mem_cons_of_mem _ h1, h2, h3⟩
        · have hred : buildInParams wc fs (g₀ :: rest) hs
              = .error (.cannotBeWildcard g₀) := by
            simp only [buildInParams, hlk]
            rw [if_pos trivial, if_neg hw]
          constructor <;> intro h
          · rw [hred] at h
            simp at h
          · rw [hred] at h
            simp only [Except.error.injEq,
              GeoBuildError.cannotBeWildcard.injEq] at h
            subst h
            exact ⟨List.mem_cons_self _ _, hlk, hw⟩
      · have hred : buildInParams wc fs (g₀ :: rest) hs
            = (buildInParams wc fs rest true).map (fun l => (g₀, v) :: l) := by
          simp only [buildInParams, hlk]
          rw [if_neg hv]
        constructor <;> intro h
        · rw [hred, map_eq_error] at h
          obtain ⟨h1, h2, h3⟩ := (ih true g).1 h
          exact ⟨List.mem_cons_of_mem _ h1, h2, h3⟩
        · rw [hred, map_eq_error] at h
          obtain ⟨h1, h2, h3⟩ := (ih true g).2 h
          exact ⟨List.mem_cons_of_mem _ h1, h2, h3⟩

/-- C8 (confirmed): with numeric-or-wildcard filter values (Python's
`int(value)` would raise otherwise) and a target level that is not among its
own requirements, `_build_geography_params` fails with
`InvalidGeographyHierarchy` exactly when some required level is not pinned
to a concrete value and is either not wildcard-eligible, or would be a
wildcard while a more specific (inner) level — the target itself or a
required level inside it — is pinned; moreover the "must supply" /
"cannot be a wildcard" errors name a required level that is not pinned and
not wildcard-eligible. -/
theorem build_geography_params_invalid_iff (geo : GeographyR)
    (fltr : List (String × String))
    (hname : geo.name ∉ geo.requires)
    (hnum : ∀ p ∈ fltr, p.2 = "*" ∨ (p.2 ≠ "" ∧ ∀ c ∈ p.2.data, c.isDigit)) :
    ((∃ e, build_geography_params geo fltr = .error e) ↔
      ∃ R1 g R2, geo.requires = R1 ++ g :: R2 ∧ ¬ pinnedFilter fltr g ∧
        (g ∉ geo.wildcard ∨ pinnedFilter fltr geo.name ∨
          ∃ g' ∈ R2, pinnedFilter fltr g')) ∧
    (∀ g, (build_geography_params geo fltr = .error (.mustSupply g) ∨
        build_geography_params geo fltr = .error (.cannotBeWildcard g)) →
      g ∈ geo.requires ∧ ¬ pinnedFilter fltr g ∧ g ∉ geo.wildcard) := by
  set fs := pad_geography_filters fltr with hfs
  have hpin : ∀ g, pinnedFilter fs g ↔ pinnedFilter fltr g :=
    fun g => pinnedFilter_pad_iff fltr g hnum
  have hpin' : ∀ g, g ≠ geo.name →
      (pinnedFilter (fs.filter (fun p => p.1 ≠ geo.name)) g
        ↔ pinnedFilter fltr g) := by
    intro g hg
    unfold pinnedFilter
    rw [lookupF_filter_ne fs geo.name g hg]
    exact hpin g
  by_cases hpname : pinnedFilter fltr geo.name
  · -- the target level itself is pinned: `has_specified_geo` starts true
    obtain ⟨v, hlkn, hvne⟩ := (hpin geo.name).mpr hpname
    have hred : build_geography_params geo fltr
        = (buildInParams geo.wildcard (fs.filter (fun p => p.1 ≠ geo.name))
            geo.requires.reverse true).map (fun l => ((geo.name, v), l)) := by
      simp only [build_geography_params]
      rw [← hfs, hlkn]
      simp [hvne]
    constructor
    · rw [hred, exists_error_map, buildInParams_error_iff,
        exists_split_reverse geo.requires]
      apply exists_congr
      intro r1
      apply exists_congr
      intro g
      apply exists_congr
      intro r2
      apply and_congr_right
      intro hsplit
      have hg_mem : g ∈ geo.requires := by rw [hsplit]; simp
      have hgne : g ≠ geo.name := fun h => hname (h ▸ hg_mem)
      constructor
      · rintro ⟨h1, _⟩
        exact ⟨(not_congr (hpin' g hgne)).mp h1, Or.inr (Or.inl hpname)⟩
      · rintro ⟨h1, _⟩
        exact ⟨(not_congr (hpin' g hgne)).mpr h1, Or.inr (Or.inl rfl)⟩
    · intro g hg
      have hnames : g ∈ geo.requires.reverse ∧
          (lookupF (fs.filter (fun p => p.1 ≠ geo.name)) g = none ∨
            lookupF (fs.filter (fun p => p.1 ≠ geo.name)) g = some "*") ∧
          g ∉ geo.wildcard := by
        rcases hg with h | h
        · rw [hred, map_eq_error] at h
          obtain ⟨h1, h2, h3⟩ := (buildInParams_error_cases geo.wildcard _
            geo.requires.reverse true g).1 h
          exact ⟨h1, Or.inl h2, h3⟩
        · rw [hred, map_eq_error] at h
          obtain ⟨h1, h2, h3⟩ := (buildInParams_error_cases geo.wildcard _
            geo.requires.reverse true g).2 h
          exact ⟨h1, Or.inr h2, h3⟩
      obtain ⟨h1, h2, h3⟩ := hnames
      have hmem := List.mem_reverse.mp h1
      have hgne : g ≠ geo.name := fun h => hname (h ▸ hmem)
      refine ⟨hmem, ?_, h3⟩
      rw [← hpin' g hgne]
      rcases h2 with h2 | h2
      · rintro ⟨w, hw, _⟩
        rw [h2] at hw
        cases hw
      · rintro ⟨w, hw, hne⟩
        rw [h2] at hw
        injection hw with hw2
        exact hne hw2.symm
  · -- the target level is not pinned: `for = name:*`, flag starts false
    have hnofs : ¬ pinnedFilter fs geo.name := fun h => hpname ((hpin _).mp h)
    have hred : build_geography_params geo fltr
        = (buildInParams geo.wildcard fs geo.requires.reverse false).map
          (fun l => ((geo.name, "*"), l)) := by
      simp only [build_geography_params]
      rw [← hfs]
      rcases hlkn : lookupF fs geo.name with _ | v
      · rfl
      · have hv : v = "*" := by
          by_contra hvne
          exact hnofs ⟨v, hlkn, hvne⟩
        subst hv
        simp
    constructor
    · rw [hred, exists_error_map, buildInParams_error_iff,
        exists_split_reverse geo.requires]
      apply exists_congr
      intro r1
      apply exists_congr
      intro g
      apply exists_congr
      intro r2
      apply and_congr_right
      intro hsplit
      have hg_mem : g ∈ geo.requires := by rw [hsplit]; simp
      constructor
      · rintro ⟨h1, h2⟩
        refine ⟨(not_congr (hpin g)).mp h1, ?_⟩
        rcases h2 with h | h | h
        · exact Or.inl h
        · simp at h
        · obtain ⟨g', hg', hp'⟩ := h
          exact Or.inr (Or.inr ⟨g', List.mem_reverse.mp hg', (hpin g').mp hp'⟩)
      · rintro ⟨h1, h2⟩
        refine ⟨(not_congr (hpin g)).mpr h1, ?_⟩
        rcases h2 with h | h | h
        · exact Or.inl h
        · exact absurd h hpname
        · obtain ⟨g', hg', hp'⟩ := h
          exact Or.inr (Or.inr
            ⟨g', List.mem_reverse.mpr hg', (hpin g').mpr hp'⟩)
    · intro g hg
      have hnames : g ∈ geo.requires.reverse ∧
          (lookupF fs g = none ∨ lookupF fs g = some "*") ∧
          g ∉ geo.wildcard := by
        rcases hg with h | h
        · rw [hred, map_eq_error] at h
          obtain ⟨h1, h2, h3⟩ := (buildInParams_error_cases geo.wildcard fs
            geo.requires.reverse false g).1 h
          exact ⟨h1, Or.inl h2, h3⟩
        · rw [hred, map_eq_error] at h
          obtain ⟨h1, h2, h3⟩ := (buildInParams_error_cases geo.wildcard fs
            geo.requires.reverse false g).2 h
          exact ⟨h1, Or.inr h2, h3⟩
      obtain ⟨h1, h2, h3⟩ := hnames
      refine ⟨List.mem_reverse.mp h1, ?_, h3⟩
      rw [← hpin g]
      rcases h2 with h2 | h2
      · rintro ⟨w, hw, _⟩
        rw [h2] at hw
        cases hw
      · rintro ⟨w, hw, hne⟩
        rw [h2] at hw
        injection hw with hw2
        exact hne hw2.symm

/-- C8 (witness): requesting tracts with only a county filter fails —
`state` is required, unsupplied, and not wildcard-eligible. -/
theorem build_geography_params_invalid_iff_witness :
    (("tract" : String) ∉ (["state", "county"] : List String)) ∧
    (∃ e, build_geography_params
      ⟨"tract", ["state", "county"], ["county"]⟩ [("county", "37")]
        = .error e) := by
  refine ⟨by decide, ?_⟩
  refine (build_geography_params_invalid_iff
      ⟨"tract", ["state", "county"], ["county"]⟩ [("county", "37")]
      (by decide) ?_).1.mpr ?_
  · intro p hp
    simp only [List.mem_singleton] at hp
    subst hp
    exact Or.inr ⟨by decide, by decide⟩
  · refine ⟨[], "state", ["county"], rfl, ?_, Or.inl (by decide)⟩
    rintro ⟨v, hv, _⟩
    have hnone : lookupF [("county", "37")] "state" = none := rfl
    rw [hnone] at hv
    cases hv

end Censaurus
